import Mathlib

/-!
Verification of the `procstats` collector (`collector/procstats.go`).

The collector has three pieces of logic:

* the PID-resolution loop inside `procstatsCollector.Update` (lines 84-96),
  which reads `/var/run/<name>.pid` for every configured process name,
  strips one trailing byte, and runs `strconv.Atoi` on the rest;
* `parseProcessStats`, which scans a `/proc/<pid>/status` stream line by
  line, splits each line on `":"`, and for lines whose first segment is
  `"VmRSS"` extracts the resident memory in kilobytes;
* `getProcessStats`, which opens one status stream per resolved PID and
  assembles the per-process records.

The embedding below models strings as `List Char` (the source only ever
handles ASCII data, so the Go byte/rune distinction is immaterial),
streams as lists of lines (the source splits its input with
`bufio.ScanLines`), and the filesystem as explicit functions from path to
optional content (`none` models a read/open error).  A Go runtime panic
(out-of-range index or slice) is modelled by an `Option` result being
`none`.  `strconv.Atoi` is modelled as on a 64-bit platform, returning
its `(int, error)` pair: both callers use the multi-assignment form
`x, err = strconv.Atoi(...)`, so the value component — `0` on a syntax
error, the clamped extreme on a range error — is stored even when the
error is non-nil.
-/

namespace Procstats

/-- Models `strings.Split s sep` for the one-character separator `":"` used
by the source: splits at every occurrence of `sep`, producing one (possibly
empty) segment more than the number of separators. -/
def splitOnChar (sep : Char) : List Char → List (List Char)
  | [] => [[]]
  | c :: cs =>
    match splitOnChar sep cs with
    | [] => [[]]
    | r :: rs => if c = sep then [] :: r :: rs else (c :: r) :: rs

/-- Models `strings.TrimSuffix s suf`: removes `suf` from the end of `s`
when `s` ends with `suf`, and returns `s` unchanged otherwise. -/
def trimSuffix (suf s : List Char) : List Char :=
  if s.drop (s.length - suf.length) = suf ∧ suf.length ≤ s.length then
    s.take (s.length - suf.length)
  else s

/-- Models `unicode.IsSpace` on the code points that `strings.TrimSpace`
can meet in this collector's ASCII/Latin-1 data: space, tab, newline,
vertical tab, form feed, carriage return, next line, no-break space.
(Other Unicode category-Z runes are not modelled; no claim concerns them.) -/
def isGoSpace (c : Char) : Bool :=
  decide (c.toNat = 32 ∨ c.toNat = 9 ∨ c.toNat = 10 ∨ c.toNat = 11 ∨
    c.toNat = 12 ∨ c.toNat = 13 ∨ c.toNat = 133 ∨ c.toNat = 160)

/-- Models `strings.TrimSpace`: drops leading and trailing whitespace. -/
def trimSpace (s : List Char) : List Char :=
  ((s.dropWhile isGoSpace).reverse.dropWhile isGoSpace).reverse

/-- True when every character is an ASCII decimal digit. -/
def allDigits (ds : List Char) : Bool :=
  ds.all fun c => decide (48 ≤ c.toNat ∧ c.toNat ≤ 57)

/-- Value of a list of ASCII decimal digits, most significant first. -/
def digitsVal (ds : List Char) : Nat :=
  ds.foldl (fun a c => a * 10 + (c.toNat - 48)) 0

/-- Largest value of Go's 64-bit `int`: `2^63 - 1`. -/
def maxInt64 : Int :=
  9223372036854775807

/-- Smallest value of Go's 64-bit `int`: `-2^63`. -/
def minInt64 : Int :=
  -9223372036854775808

/-- Unsigned-digits half of `strconv.Atoi` (the `'+'`/no-sign cases):
a non-empty digit string in range parses exactly; a non-empty digit
string above `maxInt64` yields Go's `ErrRange` result `(maxInt64, err)`;
anything else is a syntax error `(0, err)`. -/
def atoiNonneg (ds : List Char) : Int × Option Unit :=
  if ds ≠ [] ∧ allDigits ds then
    if Int.ofNat (digitsVal ds) ≤ maxInt64 then (Int.ofNat (digitsVal ds), none)
    else (maxInt64, some ())
  else (0, some ())

/-- Negative half of `strconv.Atoi` (the `'-'` case): clamps to
`minInt64` with `ErrRange` below the `int64` range. -/
def atoiNeg (ds : List Char) : Int × Option Unit :=
  if ds ≠ [] ∧ allDigits ds then
    if minInt64 ≤ -Int.ofNat (digitsVal ds) then (-Int.ofNat (digitsVal ds), none)
    else (minInt64, some ())
  else (0, some ())

/-- Models `strconv.Atoi` on a 64-bit platform, as Go's `(int, error)`
pair (`some ()` = non-nil error): an optional sign followed by at least
one decimal digit.  Syntax errors return value `0` with the error; a
well-formed numeral beyond the `int64` range returns the clamped
`maxInt64`/`minInt64` with the error (`ErrRange`); otherwise the exact
value with a nil error. -/
def atoi (s : List Char) : Int × Option Unit :=
  match s with
  | [] => (0, some ())
  | c :: cs =>
    if c = '+' then atoiNonneg cs
    else if c = '-' then atoiNeg cs
    else atoiNonneg (c :: cs)

/-- The `map[int]int` record built by `parseProcessStats`.  The source
writes exactly two keys: `stats[0]` (the PID, assigned once before the
scan loop) and `stats[1]` (resident memory, assigned inside the loop), so
the map is rendered as one mandatory and one optional field. -/
structure ProcStats where
  slot0 : Int
  slot1 : Option Int
deriving DecidableEq

/-- The field name the scan loop compares each line's first colon
segment against: `procStats[0] == "VmRSS"`. -/
def vmKey : List Char :=
  "VmRSS".toList

/-- Effect of one line of the scan loop of `parseProcessStats` on
`stats[1]`.  Returns `none` when the Go code panics, `some none` when the
line's first `":"` segment is not `"VmRSS"` (no assignment), and
`some (some v)` when the line assigns `stats[1] = v`.  Mirrors the source:
`procStats[1]` panics when the line has no colon; `data[1:]` panics when
the segment after the first colon is empty; `stats[1], err = strconv.Atoi(data)`
stores `Atoi`'s value component even when its error is non-nil — `0` on a
syntax error, the clamp on a range error (the `continue` only skips the
rest of the loop body). -/
def vmField (line : List Char) : Option (Option Int) :=
  match splitOnChar ':' line with
  | [] => some none
  | key :: rest =>
    if key = vmKey then
      match rest with
      | [] => none
      | data :: _ =>
        match data with
        | [] => none
        | _ :: dataTail =>
          some (some ((atoi (trimSpace (trimSuffix ("kB".toList) dataTail))).1))
    else some none

/-- One iteration of the scan loop: apply `vmField` and update the map. -/
def parseLine (s : ProcStats) (line : List Char) : Option ProcStats :=
  match vmField line with
  | none => none
  | some none => some s
  | some (some v) => some { s with slot1 := some v }

/-- The scan loop of `parseProcessStats` over the stream's lines. -/
def parseLines (s : ProcStats) : List (List Char) → Option ProcStats
  | [] => some s
  | line :: rest =>
    match parseLine s line with
    | none => none
    | some t => parseLines t rest

/-- Models `parseProcessStats(r, pid)`: initialises `stats[0] = pid`,
runs the scan loop, and returns `(stats, nil)` — the source's final
statement is literally `return stats, nil`, so the error component is
always `none`.  The overall `none` result models a panic in the loop. -/
def parseProcessStats (lines : List (List Char)) (pid : Int) :
    Option (ProcStats × Option Unit) :=
  match parseLines { slot0 := pid, slot1 := none } lines with
  | none => none
  | some s => some (s, none)

/-- Path of the PID file read by the resolution loop of `Update`:
`"/var/run/" + procName + ".pid"`. -/
def pidFilePath (procName : String) : String :=
  "/var/run/" ++ procName ++ ".pid"

/-- Models the PID-resolution loop of `procstatsCollector.Update`
(procstats.go lines 84-96).  `readFile` stands for `ioutil.ReadFile`
(`none` models a read error).  Mirrors the source: a read error skips the
name (`continue`); `pidBytes[:len(pidBytes)-1]` panics on empty content
(modelled by the overall `none`); `pid, err = strconv.Atoi(pidStr)` is
followed only by a log on error — there is no `continue` — so
`procPID[procName] = pid` runs unconditionally, with `pid` holding
`Atoi`'s value component even when its error is non-nil (`0` on a syntax
error, the clamp on a range error).  The map is rendered as an association
list in iteration order; the spec (§3) takes configured names to be
unique within a pass. -/
def resolvePIDs (readFile : String → Option (List Char)) :
    List String → Option (List (String × Int))
  | [] => some []
  | procName :: rest =>
    match readFile (pidFilePath procName) with
    | none => resolvePIDs readFile rest
    | some pidBytes =>
      match pidBytes with
      | [] => none
      | _ :: _ =>
        let pidStr := pidBytes.take (pidBytes.length - 1)
        let pid := (atoi pidStr).1
        match resolvePIDs readFile rest with
        | none => none
        | some m => some ((procName, pid) :: m)

/-- Modelled from the spec: `procFilePath` is defined elsewhere in the
repository (not under the sources at hand); per §4.3 the status path is
"a fixed process-info root + PID (as decimal string)", with root
`/proc`. -/
def procFilePath (name : String) : String :=
  "/proc/" ++ name

/-- Path of the status stream for a PID: `procFilePath(pidStr) + "/status"`
with `pidStr = strconv.Itoa(pid)`. -/
def statusFilePath (pid : Int) : String :=
  procFilePath (toString pid) ++ "/status"

/-- Models `getProcessStats(procPID)`.  `openFile` stands for `os.Open`
followed by reading the stream (`none` models an open error); `procPID`
is an association list standing for the Go map in one iteration order
(Go map iteration order is unspecified).  Mirrors the source: an open
error logs and returns the statistics accumulated so far together with
the error; a parse error only logs (and `parseProcessStats` in fact never
returns one).  Accumulation is rendered by prepending the current record
to the result of the recursive call: a failure deeper in the list yields
`([], some ())` there, so the unwound result is exactly the records of
the names handled before the failure. -/
def getProcessStats (openFile : String → Option (List (List Char))) :
    List (String × Int) → Option (List (String × ProcStats) × Option Unit)
  | [] => some ([], none)
  | (procName, pid) :: rest =>
    match openFile (statusFilePath pid) with
    | none => some ([], some ())
    | some lines =>
      match parseProcessStats lines pid with
      | none => none
      | some (st, _) =>
        match getProcessStats openFile rest with
        | none => none
        | some (m, e) => some ((procName, st) :: m, e)

/-- Shape precondition on a status line: when the text before the first
colon is `"VmRSS"`, the line actually contains a colon followed by at
least one character (so neither `procStats[1]` nor `data[1:]` goes out of
bounds in the source). -/
def vmShapeOK (line : List Char) : Bool :=
  match splitOnChar ':' line with
  | [] => true
  | key :: rest =>
    if key = vmKey then
      match rest with
      | [] => false
      | [] :: _ => false
      | (_ :: _) :: _ => true
    else true

theorem splitOnChar_ne_nil (sep : Char) (l : List Char) : splitOnChar sep l ≠ [] := by
  cases l with
  | nil => simp [splitOnChar]
  | cons c cs =>
    simp only [splitOnChar]
    cases splitOnChar sep cs with
    | nil => simp
    | cons r rs => by_cases h : c = sep <;> simp [h]

theorem splitOnChar_cons (sep c : Char) (cs : List Char) :
    splitOnChar sep (c :: cs) =
      match splitOnChar sep cs with
      | [] => [[]]
      | r :: rs => if c = sep then [] :: r :: rs else (c :: r) :: rs := rfl

theorem splitOnChar_of_not_mem {sep : Char} {l : List Char} (h : sep ∉ l) :
    splitOnChar sep l = [l] := by
  induction l with
  | nil => rfl
  | cons c cs ih =>
    simp only [List.mem_cons, not_or] at h
    simp [splitOnChar, ih h.2, Ne.symm h.1]

theorem splitOnChar_append {sep : Char} {l : List Char} (r : List Char) (h : sep ∉ l) :
    splitOnChar sep (l ++ sep :: r) = l :: splitOnChar sep r := by
  induction l with
  | nil =>
    simp only [List.nil_append, splitOnChar]
    cases hr : splitOnChar sep r with
    | nil => exact absurd hr (splitOnChar_ne_nil sep r)
    | cons a as => simp
  | cons c cs ih =>
    simp only [List.mem_cons, not_or] at h
    have ih2 := ih h.2
    rw [List.cons_append, splitOnChar_cons, ih2]
    simp [Ne.symm h.1]

theorem trimSuffix_append (l suf : List Char) : trimSuffix suf (l ++ suf) = l := by
  have hlen : (l ++ suf).length - suf.length = l.length := by
    simp [List.length_append]
  have hdrop : (l ++ suf).drop ((l ++ suf).length - suf.length) = suf := by
    rw [hlen]; exact List.drop_left l suf
  have hle : suf.length ≤ (l ++ suf).length := by simp [List.length_append]
  rw [trimSuffix, if_pos ⟨hdrop, hle⟩, hlen]
  exact List.take_left l suf

theorem not_space_of_digit {c : Char} (h1 : 48 ≤ c.toNat) (h2 : c.toNat ≤ 57) :
    isGoSpace c = false := by
  simp only [isGoSpace, decide_eq_false_iff_not]
  omega

theorem dropWhile_no_space {l : List Char} (h : ∀ c ∈ l, isGoSpace c = false) :
    l.dropWhile isGoSpace = l := by
  cases l with
  | nil => rfl
  | cons a t => simp [List.dropWhile_cons, h a (List.mem_cons_self a t)]

theorem all_not_space_of_digits {ds : List Char} (h : allDigits ds = true) :
    ∀ c ∈ ds, isGoSpace c = false := by
  intro c hc
  have hd := of_decide_eq_true ((List.all_eq_true.mp h) c hc)
  exact not_space_of_digit hd.1 hd.2

theorem trimSpace_digits {ds : List Char} (h1 : ds ≠ []) (h2 : allDigits ds = true) :
    trimSpace (ds ++ [' ']) = ds := by
  have hall := all_not_space_of_digits h2
  obtain ⟨a, t, rfl⟩ := List.exists_cons_of_ne_nil h1
  have hhead : isGoSpace a = false := hall a (List.mem_cons_self a t)
  unfold trimSpace
  have hstep1 : ((a :: t) ++ [' ']).dropWhile isGoSpace = (a :: t) ++ [' '] := by
    simp only [List.cons_append, List.dropWhile_cons, hhead]
    simp
  rw [hstep1]
  have hrev : ((a :: t) ++ [' ']).reverse = ' ' :: (a :: t).reverse := by
    simp
  rw [hrev]
  have hsp : isGoSpace ' ' = true := by decide
  have hstep2 : (' ' :: (a :: t).reverse).dropWhile isGoSpace
      = (a :: t).reverse.dropWhile isGoSpace := by
    simp [List.dropWhile_cons, hsp]
  rw [hstep2]
  have hstep3 : (a :: t).reverse.dropWhile isGoSpace = (a :: t).reverse :=
    dropWhile_no_space (fun c hc => hall c (List.mem_reverse.mp hc))
  rw [hstep3, List.reverse_reverse]

theorem atoi_digits {ds : List Char} (h1 : ds ≠ []) (h2 : allDigits ds = true)
    (h3 : Int.ofNat (digitsVal ds) ≤ maxInt64) :
    atoi ds = (Int.ofNat (digitsVal ds), none) := by
  obtain ⟨a, t, rfl⟩ := List.exists_cons_of_ne_nil h1
  have ha := of_decide_eq_true ((List.all_eq_true.mp h2) a (List.mem_cons_self a t))
  have hplus : ¬(a = '+') := by
    intro e
    rw [e] at ha
    have : ('+').toNat = 43 := by decide
    omega
  have hminus : ¬(a = '-') := by
    intro e
    rw [e] at ha
    have : ('-').toNat = 45 := by decide
    omega
  simp only [atoi, if_neg hplus, if_neg hminus]
  unfold atoiNonneg
  rw [if_pos ⟨h1, h2⟩, if_pos h3]

theorem parseLines_cons (s : ProcStats) (x : List Char) (l : List (List Char)) :
    parseLines s (x :: l) = (parseLine s x).bind fun t => parseLines t l := by
  cases h : parseLine s x <;> simp [parseLines, h]

theorem parseLines_append (as bs : List (List Char)) :
    ∀ s : ProcStats,
      parseLines s (as ++ bs) = (parseLines s as).bind fun t => parseLines t bs := by
  induction as with
  | nil => intro s; simp [parseLines]
  | cons x xs ih =>
    intro s
    rw [List.cons_append, parseLines_cons, parseLines_cons]
    cases h : parseLine s x with
    | none => simp
    | some t => simpa using ih t

theorem parseLines_skip {ls : List (List Char)} (h : ∀ l ∈ ls, vmField l = some none) :
    ∀ s : ProcStats, parseLines s ls = some s := by
  induction ls with
  | nil => intro s; rfl
  | cons x xs ih =>
    intro s
    rw [parseLines_cons]
    have hx : parseLine s x = some s := by
      simp [parseLine, h x (List.mem_cons_self x xs)]
    rw [hx]
    exact ih (fun l hl => h l (List.mem_cons_of_mem x hl)) s

theorem parseLine_slot0 {s u : ProcStats} {x : List Char} (h : parseLine s x = some u) :
    u.slot0 = s.slot0 := by
  unfold parseLine at h
  cases hv : vmField x with
  | none => rw [hv] at h; cases h
  | some o =>
    cases o with
    | none =>
      rw [hv] at h
      simp only [Option.some.injEq] at h
      rw [← h]
    | some v =>
      rw [hv] at h
      simp only [Option.some.injEq] at h
      rw [← h]

theorem parseLines_slot0 : ∀ (ls : List (List Char)) (s t : ProcStats),
    parseLines s ls = some t → t.slot0 = s.slot0 := by
  intro ls
  induction ls with
  | nil =>
    intro s t h
    simp only [parseLines, Option.some.injEq] at h
    rw [← h]
  | cons x xs ih =>
    intro s t h
    rw [parseLines_cons] at h
    cases hx : parseLine s x with
    | none => rw [hx] at h; cases h
    | some u =>
      rw [hx] at h
      simp only [Option.some_bind] at h
      rw [ih u t h, parseLine_slot0 hx]

theorem vmField_of_split_cons {line : List Char} {c : Char} {dataTail : List Char}
    {rest : List (List Char)}
    (h : splitOnChar ':' line = vmKey :: (c :: dataTail) :: rest) :
    vmField line
      = some (some ((atoi (trimSpace (trimSuffix ("kB".toList) dataTail))).1)) := by
  unfold vmField
  rw [h]
  simp

/-- Fixture for C1: `/var/run/a.pid` holds `"456\n"`, `/var/run/b.pid`
holds the non-numeric `"abc\n"`, nothing else is readable. -/
def c1ReadFile : String → Option (List Char) := fun path =>
  if path = "/var/run/a.pid" then some ['4', '5', '6', '\n']
  else if path = "/var/run/b.pid" then some ['a', 'b', 'c', '\n']
  else none

/-- C1 (refuting evaluation): with configured names `a` (valid PID file
`"456\n"`) and `b` (non-numeric PID file `"abc\n"`), the resolution loop
still inserts an entry for `b`, carrying `strconv.Atoi`'s zero result:
the `Atoi` error branch only logs and does not `continue`, so
`procPID[procName] = pid` runs anyway.  The mapping gets 2 entries
although only 1 of the 2 names has a valid PID file, contradicting the
claim that exactly M entries result and none is inserted for `b`. -/
theorem resolver_keeps_entry_on_malformed_pid :
    resolvePIDs c1ReadFile (["a", "b"]) = some ([("a", 456), ("b", 0)]) := by
  decide

/-- C2 (refuting evaluation): on the stream whose single line is
`VmRSS:\tabc kB` (malformed numeric remainder) with PID 9, the parser's
record maps slot 1 to `0`: the Go statement
`stats[1], err = strconv.Atoi(data)` stores `Atoi`'s zero result into the
map before the error is checked, so slot 1 is not left absent. -/
theorem parser_stores_zero_on_malformed_vmrss :
    parseProcessStats ([(("VmRSS:" ++ "\tabc kB").toList)]) 9
      = some ({ slot0 := 9, slot1 := some 0 }, none) := by
  decide

/-- C3 (amended): for every stream that contains exactly one
resident-memory line (one line whose first colon segment is `VmRSS`,
every other line keyed otherwise), that line being of the form
`VmRSS:\t<digits> kB` with the digits' value within the `int64` range,
and every PID `p`, the parser returns slot 0 = `p` and slot 1 = the
digits' value.  (Beyond `maxInt64` the program stores `Atoi`'s `ErrRange`
clamp instead — see the counterexample.) -/
theorem parser_single_vmrss_line (p : Int) (xs ys : List (List Char))
    (ds : List Char) (N : Int)
    (hds : ds ≠ []) (hdig : allDigits ds = true)
    (hval : Int.ofNat (digitsVal ds) = N)
    (hrange : N ≤ maxInt64)
    (hxs : ∀ l ∈ xs, vmField l = some none)
    (hys : ∀ l ∈ ys, vmField l = some none) :
    parseProcessStats
        (xs ++ (vmKey ++ ':' :: '\t' :: (ds ++ (" kB".toList))) :: ys) p
      = some ({ slot0 := p, slot1 := some N }, none) := by
  have hcol : (':' : Char) ∉ vmKey := by decide
  have hinner : (':' : Char) ∉ ('\t' :: (ds ++ (" kB".toList))) := by
    intro hm
    rcases List.mem_cons.mp hm with h1 | h1
    · exact absurd h1 (by decide)
    · rcases List.mem_append.mp h1 with h2 | h2
      · have hb := of_decide_eq_true ((List.all_eq_true.mp hdig) _ h2)
        have hc : (':' : Char).toNat = 58 := by decide
        omega
      · exact absurd h2 (by decide)
  have hsplit : splitOnChar ':' (vmKey ++ ':' :: '\t' :: (ds ++ (" kB".toList)))
      = vmKey :: ('\t' :: (ds ++ (" kB".toList))) :: [] := by
    rw [splitOnChar_append _ hcol, splitOnChar_of_not_mem hinner]
  have hdtail : ds ++ (" kB".toList) = (ds ++ [' ']) ++ ("kB".toList) := by
    simp
  have htrim : trimSpace (trimSuffix ("kB".toList) (ds ++ (" kB".toList))) = ds := by
    rw [hdtail, trimSuffix_append]
    exact trimSpace_digits hds hdig
  have hvm : vmField (vmKey ++ ':' :: '\t' :: (ds ++ (" kB".toList)))
      = some (some N) := by
    have hrange2 : Int.ofNat (digitsVal ds) ≤ maxInt64 := by
      rw [hval]; exact hrange
    rw [vmField_of_split_cons hsplit, htrim, atoi_digits hds hdig hrange2, hval]
  unfold parseProcessStats
  rw [parseLines_append,
    parseLines_skip hxs ({ slot0 := p, slot1 := none }), Option.some_bind,
    parseLines_cons]
  have hpl : parseLine { slot0 := p, slot1 := none }
      (vmKey ++ ':' :: '\t' :: (ds ++ (" kB".toList)))
      = some { slot0 := p, slot1 := some N } := by
    unfold parseLine
    rw [hvm]
  rw [hpl, Option.some_bind, parseLines_skip hys]

/-- C3 witness: the concrete fixture — the line `VmRSS:\t11708 kB` with
PID 123 yields the record with slot 0 = 123 and slot 1 = 11708. -/
theorem parser_single_vmrss_line_witness :
    parseProcessStats
        ([(vmKey ++ ':' :: '\t' :: ((['1', '1', '7', '0', '8']) ++ (" kB".toList)))])
        123
      = some ({ slot0 := 123, slot1 := some 11708 }, none) :=
  parser_single_vmrss_line 123 [] [] (['1', '1', '7', '0', '8']) 11708
    (by decide) (by decide) (by decide) (by decide) (by simp) (by simp)

/-- C3 (counterexample to the original claim): on the single
resident-memory line `VmRSS:\t99999999999999999999 kB` — a well-formed
`VmRSS:\t<N> kB` line whose 20-digit numeral exceeds the `int64` range —
with PID 1, the parser stores `strconv.Atoi`'s `ErrRange` clamp
`9223372036854775807` into slot 1 via the multi-assignment, not the
line's value `N = 99999999999999999999`. -/
theorem parser_vmrss_overflow_counterexample :
    parseProcessStats
        ([(vmKey ++ ':' :: '\t' :: (("99999999999999999999".toList) ++ (" kB".toList)))]) 1
      = some ({ slot0 := 1, slot1 := some 9223372036854775807 }, none)
    ∧ (9223372036854775807 : Int) ≠ 99999999999999999999 :=
  ⟨by decide, by decide⟩

/-- C4: slot 0 of every record the status parser returns equals the PID
argument passed in; the scan loop never writes it from the status text. -/
theorem parser_slot0_eq_pid (lines : List (List Char)) (p : Int)
    (r : ProcStats × Option Unit) (h : parseProcessStats lines p = some r) :
    r.1.slot0 = p := by
  unfold parseProcessStats at h
  cases hs : parseLines { slot0 := p, slot1 := none } lines with
  | none => rw [hs] at h; cases h
  | some s =>
    rw [hs] at h
    simp only [Option.some.injEq] at h
    rw [← h]
    exact parseLines_slot0 lines _ s hs

/-- C4 witness: on the stream with the single line `Name:\tbash` and PID
5, the parser succeeds and the returned record's slot 0 is 5. -/
theorem parser_slot0_eq_pid_witness :
    (({ slot0 := 5, slot1 := none } : ProcStats), (none : Option Unit)).1.slot0 = 5 :=
  parser_slot0_eq_pid ([(("Name:" ++ "\tbash").toList)]) 5
    (({ slot0 := 5, slot1 := none }, none)) (by decide)

/-- C5: the parser scans all lines (no early termination): when the last
VmRSS-keyed line of the stream is well-formed with value `N`, no later
line is VmRSS-keyed, and at least one earlier line is a well-formed VmRSS
line, slot 1 of the result holds the last occurrence's `N`. -/
theorem parser_last_vmrss_wins (p N : Int) (xs ys : List (List Char))
    (ln : List Char) (r : ProcStats × Option Unit)
    (hpar : parseProcessStats (xs ++ ln :: ys) p = some r)
    (hln : vmField ln = some (some N))
    (hys : ∀ l ∈ ys, vmField l = some none)
    (_hmulti : ∃ l, l ∈ xs ∧ ∃ v : Int, vmField l = some (some v)) :
    r.1.slot1 = some N := by
  unfold parseProcessStats at hpar
  cases hs : parseLines { slot0 := p, slot1 := none } (xs ++ ln :: ys) with
  | none => rw [hs] at hpar; cases hpar
  | some s =>
    rw [hs] at hpar
    simp only [Option.some.injEq] at hpar
    rw [parseLines_append] at hs
    cases ht : parseLines { slot0 := p, slot1 := none } xs with
    | none => rw [ht] at hs; simp at hs
    | some t =>
      rw [ht] at hs
      simp only [Option.some_bind] at hs
      rw [parseLines_cons] at hs
      have hpl : parseLine t ln = some { t with slot1 := some N } := by
        simp [parseLine, hln]
      rw [hpl] at hs
      simp only [Option.some_bind] at hs
      rw [parseLines_skip hys] at hs
      simp only [Option.some.injEq] at hs
      rw [← hpar, ← hs]

/-- C5 witness: with lines `VmRSS:\t1 kB` then `VmRSS:\t2 kB` and PID 7,
the record's slot 1 is 2, the value of the last occurrence. -/
theorem parser_last_vmrss_wins_witness :
    (({ slot0 := 7, slot1 := some 2 } : ProcStats), (none : Option Unit)).1.slot1 = some 2 :=
  parser_last_vmrss_wins 7 2 ([(("VmRSS:" ++ "\t1 kB").toList)]) []
    (("VmRSS:" ++ "\t2 kB").toList)
    (({ slot0 := 7, slot1 := some 2 }, none))
    (by decide) (by decide) (by simp)
    (⟨(("VmRSS:" ++ "\t1 kB").toList), (by decide), 1, (by decide)⟩)

/-- C7: the status parser's error return is always nil: whenever it
returns at all (including on malformed memory-field values, which only
log and continue), the error component is `none` — the source's single
return statement is `return stats, nil`. -/
theorem parser_error_always_nil (lines : List (List Char)) (p : Int)
    (r : ProcStats × Option Unit) (h : parseProcessStats lines p = some r) :
    r.2 = none := by
  unfold parseProcessStats at h
  cases hs : parseLines { slot0 := p, slot1 := none } lines with
  | none => rw [hs] at h; cases h
  | some s =>
    rw [hs] at h
    simp only [Option.some.injEq] at h
    rw [← h]

/-- C7 witness: even on a stream whose VmRSS line is malformed
(`VmRSS:\txy kB`, PID 4), the parser returns with a `none` error. -/
theorem parser_error_always_nil_witness :
    (({ slot0 := 4, slot1 := some 0 } : ProcStats), (none : Option Unit)).2 = none :=
  parser_error_always_nil ([(("VmRSS:" ++ "\txy kB").toList)]) 4
    (({ slot0 := 4, slot1 := some 0 }, none)) (by decide)

theorem getProcessStats_cons (f : String → Option (List (List Char)))
    (n : String) (p : Int) (rest : List (String × Int)) :
    getProcessStats f ((n, p) :: rest) =
      match f (statusFilePath p) with
      | none => some ([], some ())
      | some lines =>
        match parseProcessStats lines p with
        | none => none
        | some (st, _) =>
          match getProcessStats f rest with
          | none => none
          | some (m, e) => some ((n, st) :: m, e) := rfl

theorem getProcessStats_upto_failure {f : String → Option (List (List Char))}
    {n : String} {p : Int} (ys : List (String × Int))
    (hfail : f (statusFilePath p) = none) :
    ∀ (xs : List (String × Int)) (m : List (String × ProcStats)),
      getProcessStats f xs = some (m, none) →
        getProcessStats f (xs ++ (n, p) :: ys) = some (m, some ()) := by
  intro xs
  induction xs with
  | nil =>
    intro m h
    simp only [getProcessStats, Option.some.injEq, Prod.mk.injEq] at h
    rw [List.nil_append, getProcessStats_cons, hfail, ← h.1]
  | cons a rest ih =>
    intro m h
    obtain ⟨n0, p0⟩ := a
    rw [getProcessStats_cons] at h
    cases hf : f (statusFilePath p0) with
    | none => rw [hf] at h; simp at h
    | some lines =>
      simp only [hf] at h
      cases hp : parseProcessStats lines p0 with
      | none => simp only [hp] at h; cases h
      | some sp =>
        simp only [hp] at h
        obtain ⟨st, e0⟩ := sp
        cases hr : getProcessStats f rest with
        | none => simp only [hr] at h; cases h
        | some me =>
          simp only [hr] at h
          obtain ⟨m0, e⟩ := me
          simp only [Option.some.injEq, Prod.mk.injEq] at h
          rw [h.2] at hr
          have hih := ih m0 hr
          simp only [List.cons_append, getProcessStats_cons, hf, hp, hih, ← h.1]

theorem getProcessStats_keys {f : String → Option (List (List Char))} :
    ∀ (ls : List (String × Int)) (m : List (String × ProcStats)),
      getProcessStats f ls = some (m, none) → m.map Prod.fst = ls.map Prod.fst := by
  intro ls
  induction ls with
  | nil =>
    intro m h
    simp only [getProcessStats, Option.some.injEq, Prod.mk.injEq] at h
    rw [← h.1]
    rfl
  | cons a rest ih =>
    intro m h
    obtain ⟨n0, p0⟩ := a
    rw [getProcessStats_cons] at h
    cases hf : f (statusFilePath p0) with
    | none => rw [hf] at h; simp at h
    | some lines =>
      simp only [hf] at h
      cases hp : parseProcessStats lines p0 with
      | none => simp only [hp] at h; cases h
      | some sp =>
        simp only [hp] at h
        obtain ⟨st, e0⟩ := sp
        cases hr : getProcessStats f rest with
        | none => simp only [hr] at h; cases h
        | some me =>
          simp only [hr] at h
          obtain ⟨m0, e⟩ := me
          simp only [Option.some.injEq, Prod.mk.injEq] at h
          rw [h.2] at hr
          rw [← h.1]
          simp only [List.map_cons]
          rw [ih m0 hr]

/-- C6: if opening the status stream of the pair `(n, p)` fails, the
orchestration over `xs ++ (n, p) :: ys` returns immediately with a
non-nil error (`some ()`), paired with exactly the records `m`
accumulated over the prefix `xs` that was handled before the failure;
the names of `m` are the names of `xs`, so pairs not yet reached
contribute nothing. -/
theorem orchestrator_open_failure_aborts (f : String → Option (List (List Char)))
    (xs ys : List (String × Int)) (n : String) (p : Int)
    (m : List (String × ProcStats))
    (hxs : getProcessStats f xs = some (m, none))
    (hfail : f (statusFilePath p) = none) :
    getProcessStats f (xs ++ (n, p) :: ys) = some (m, some ())
      ∧ m.map Prod.fst = xs.map Prod.fst :=
  ⟨getProcessStats_upto_failure ys hfail xs m hxs, getProcessStats_keys xs m hxs⟩

/-- Fixture for the C6 witness: only `/proc/1/status` opens, with a
single well-formed VmRSS line. -/
def c6OpenFile : String → Option (List (List Char)) := fun path =>
  if path = "/proc/1/status" then some ([(("VmRSS:" ++ "\t5 kB").toList)])
  else none

/-- C6 witness: with resolved pairs `a ↦ 1`, `b ↦ 2`, `c ↦ 3` and the
open of `/proc/2/status` failing, orchestration returns `a`'s record
paired with a non-nil error, and `c` is absent. -/
theorem orchestrator_open_failure_aborts_witness :
    getProcessStats c6OpenFile ([("a", (1 : Int))] ++ ("b", 2) :: [("c", 3)])
        = some ([("a", { slot0 := 1, slot1 := some 5 })], some ())
      ∧ ([("a", ({ slot0 := 1, slot1 := some 5 } : ProcStats))]).map Prod.fst
        = ([("a", (1 : Int))]).map Prod.fst :=
  orchestrator_open_failure_aborts c6OpenFile ([("a", 1)]) ([("c", 3)]) ("b") 2
    ([("a", { slot0 := 1, slot1 := some 5 })]) (by decide) (by decide)

theorem resolvePIDs_cons_skip {f : String → Option (List Char)} {a : String}
    (rest : List String) (hf : f (pidFilePath a) = none) :
    resolvePIDs f (a :: rest) = resolvePIDs f rest := by
  simp only [resolvePIDs]
  rw [hf]

theorem resolvePIDs_cons_empty {f : String → Option (List Char)} {a : String}
    (rest : List String) (hf : f (pidFilePath a) = some []) :
    resolvePIDs f (a :: rest) = none := by
  simp only [resolvePIDs]
  rw [hf]

theorem resolvePIDs_cons_read {f : String → Option (List Char)} {a : String}
    {c0 : Char} {ctail : List Char} (rest : List String)
    (hf : f (pidFilePath a) = some (c0 :: ctail)) :
    resolvePIDs f (a :: rest) =
      match resolvePIDs f rest with
      | none => none
      | some m =>
        some ((a, (atoi ((c0 :: ctail).take ((c0 :: ctail).length - 1))).1) :: m) := by
  simp only [resolvePIDs]
  rw [hf]

/-- C8: for a configured name whose PID file is readable, the resolver
derives the name's PID by stripping exactly one trailing byte from the
file content and parsing the rest with `Atoi`: whenever resolution
succeeds and the stripped content parses to `k`, the mapping resolves
`name` to `k`. -/
theorem resolver_strips_one_trailing_byte (f : String → Option (List Char))
    (names : List String) (name : String) (content : List Char) (k : Int)
    (m : List (String × Int))
    (hres : resolvePIDs f names = some m)
    (hmem : name ∈ names) (hnd : names.Nodup)
    (hfile : f (pidFilePath name) = some content)
    (hatoi : atoi (content.take (content.length - 1)) = (k, none)) :
    m.lookup name = some k := by
  revert m hmem hnd
  induction names with
  | nil =>
    intro m hres hmem hnd
    exact absurd hmem (List.not_mem_nil name)
  | cons a rest ih =>
    intro m hres hmem hnd
    rcases List.mem_cons.mp hmem with rfl | hmem2
    · cases content with
      | nil => simp [atoi] at hatoi
      | cons c0 ctail =>
        rw [resolvePIDs_cons_read rest hfile] at hres
        cases hr : resolvePIDs f rest with
        | none => rw [hr] at hres; cases hres
        | some m0 =>
          rw [hr] at hres
          cases hres
          have hlen : (c0 :: ctail).length - 1 = ctail.length := by simp
          rw [hlen] at hatoi
          simp [List.lookup, hatoi]
    · have hna : a ∉ rest := (List.nodup_cons.mp hnd).1
      have hne : name ≠ a := fun e => hna (e ▸ hmem2)
      have hndr : rest.Nodup := (List.nodup_cons.mp hnd).2
      cases hf : f (pidFilePath a) with
      | none =>
        rw [resolvePIDs_cons_skip rest hf] at hres
        exact ih m hres hmem2 hndr
      | some bytes =>
        cases bytes with
        | nil => rw [resolvePIDs_cons_empty rest hf] at hres; cases hres
        | cons b bs =>
          rw [resolvePIDs_cons_read rest hf] at hres
          cases hr : resolvePIDs f rest with
          | none => rw [hr] at hres; cases hres
          | some m0 =>
            rw [hr] at hres
            cases hres
            have hbeq : (name == a) = false := beq_eq_false_iff_ne.mpr hne
            simp [List.lookup, hbeq]
            exact ih m0 hr hmem2 hndr

/-- Fixture for the C8 witness: `/var/run/x.pid` holds `"456\n"`. -/
def c8ReadFile : String → Option (List Char) := fun path =>
  if path = "/var/run/x.pid" then some ['4', '5', '6', '\n'] else none

/-- C8 witness: the PID file content `"456\n"` resolves name `x` to PID
456 in the mapping. -/
theorem resolver_strips_one_trailing_byte_witness :
    resolvePIDs c8ReadFile (["x"]) = some ([("x", 456)])
      ∧ (([("x", (456 : Int))]).lookup ("x")) = some 456 :=
  ⟨by decide,
    resolver_strips_one_trailing_byte c8ReadFile (["x"]) ("x")
      (['4', '5', '6', '\n']) 456 ([("x", 456)])
      (by decide) (by decide) (by decide) (by decide) (by decide)⟩

theorem vmField_ne_none_of_shape {ln : List Char} (h : vmShapeOK ln = true) :
    vmField ln ≠ none := by
  unfold vmShapeOK at h
  unfold vmField
  cases hs : splitOnChar ':' ln with
  | nil => simp
  | cons key rest =>
    rw [hs] at h
    by_cases hk : key = vmKey
    · simp only [if_pos hk] at h ⊢
      cases rest with
      | nil => simp at h
      | cons data rs =>
        cases data with
        | nil => simp at h
        | cons c ctail => simp
    · simp [if_neg hk]

theorem parseLines_total {ls : List (List Char)}
    (h : ∀ l ∈ ls, vmShapeOK l = true) :
    ∀ s : ProcStats, (parseLines s ls).isSome = true := by
  induction ls with
  | nil => intro s; simp [parseLines]
  | cons x xs ih =>
    intro s
    rw [parseLines_cons]
    have hx := vmField_ne_none_of_shape (h x (List.mem_cons_self x xs))
    have hpl : (parseLine s x).isSome = true := by
      unfold parseLine
      cases hv : vmField x with
      | none => exact absurd hv hx
      | some o => cases o <;> simp
    cases hpl2 : parseLine s x with
    | none => rw [hpl2] at hpl; cases hpl
    | some t =>
      simp only [Option.some_bind]
      exact ih (fun l hl => h l (List.mem_cons_of_mem x hl)) t

/-- C9: the status parser is total exactly under the shape precondition
that every VmRSS-keyed line has a colon followed by at least one
character: under the precondition the parse returns a record, while each
of the two bad shapes — a line that is exactly `VmRSS` (no colon) and a
line `VmRSS:` (nothing after the colon) — drives the source's indexing
(`procStats[1]`, respectively `data[1:]`) out of bounds, modelled by the
`none` (panic) result. -/
theorem parser_shape_precondition (lines : List (List Char)) (p : Int) :
    ((∀ ln ∈ lines, vmShapeOK ln = true) → (parseProcessStats lines p).isSome = true)
      ∧ (parseProcessStats ([vmKey]) p = none
        ∧ parseProcessStats ([(vmKey ++ [':'])]) p = none) := by
  refine ⟨fun h => ?_, ?_, ?_⟩
  · unfold parseProcessStats
    cases hs : parseLines { slot0 := p, slot1 := none } lines with
    | none =>
      have ht := parseLines_total h ({ slot0 := p, slot1 := none })
      rw [hs] at ht
      cases ht
    | some s => simp
  · rfl
  · rfl

/-- C9 witness: a stream whose one line `VmRSS:\t7 kB` satisfies the
shape precondition parses to a record, and the stream with the single
colonless line `VmRSS` makes the parser panic. -/
theorem parser_shape_precondition_witness :
    (parseProcessStats ([(("VmRSS:" ++ "\t7 kB").toList)]) 5).isSome = true
      ∧ parseProcessStats ([vmKey]) 7 = none :=
  ⟨(parser_shape_precondition ([(("VmRSS:" ++ "\t7 kB").toList)]) 5).1 (by decide),
    ((parser_shape_precondition ([vmKey]) 7).2).1⟩

/-- C10: the PID resolver is total exactly when every readable PID file
is non-empty: when no configured name's file is readable-but-empty the
loop completes, while a readable empty file makes
`pidBytes[:len(pidBytes)-1]` slice out of bounds — modelled by the
`none` (panic) result — instead of skipping that name. -/
theorem resolver_empty_pidfile_panics (f : String → Option (List Char))
    (names : List String) :
    ((∀ n ∈ names, f (pidFilePath n) ≠ some []) → (resolvePIDs f names).isSome = true)
      ∧ (∀ n ∈ names, f (pidFilePath n) = some [] → resolvePIDs f names = none) := by
  induction names with
  | nil =>
    exact ⟨fun _ => by simp [resolvePIDs], fun n hn => absurd hn (List.not_mem_nil n)⟩
  | cons a rest ih =>
    constructor
    · intro h
      cases hf : f (pidFilePath a) with
      | none =>
        have hrest := ih.1 (fun n hn => h n (List.mem_cons_of_mem a hn))
        rw [resolvePIDs_cons_skip rest hf]
        exact hrest
      | some bytes =>
        cases bytes with
        | nil => exact absurd hf (h a (List.mem_cons_self a rest))
        | cons b bs =>
          have hrest := ih.1 (fun n hn => h n (List.mem_cons_of_mem a hn))
          rw [resolvePIDs_cons_read rest hf]
          cases hr : resolvePIDs f rest with
          | none => rw [hr] at hrest; cases hrest
          | some m => simp
    · intro n hn hempty
      rcases List.mem_cons.mp hn with rfl | hn2
      · exact resolvePIDs_cons_empty rest hempty
      · have hrec := ih.2 n hn2 hempty
        cases hf : f (pidFilePath a) with
        | none => rw [resolvePIDs_cons_skip rest hf]; exact hrec
        | some bytes =>
          cases bytes with
          | nil => exact resolvePIDs_cons_empty rest hf
          | cons b bs =>
            rw [resolvePIDs_cons_read rest hf, hrec]

/-- Fixture for the C10 witness, totality side: `/var/run/g.pid` holds
the non-empty content `"4\n"`. -/
def c10GoodFile : String → Option (List Char) := fun path =>
  if path = "/var/run/g.pid" then some ['4', '\n'] else none

/-- Fixture for the C10 witness, panic side: `/var/run/e.pid` is
readable and empty. -/
def c10EmptyFile : String → Option (List Char) := fun path =>
  if path = "/var/run/e.pid" then some [] else none

/-- C10 witness: a non-empty PID file resolves without panic; a readable
empty PID file makes the resolver panic. -/
theorem resolver_empty_pidfile_panics_witness :
    (resolvePIDs c10GoodFile (["g"])).isSome = true
      ∧ resolvePIDs c10EmptyFile (["e"]) = none :=
  ⟨(resolver_empty_pidfile_panics c10GoodFile (["g"])).1 (by decide),
    (resolver_empty_pidfile_panics c10EmptyFile (["e"])).2 ("e") (by decide) (by decide)⟩

end Procstats
